import Mathlib

/-!
Shallow embedding of the ANSI-aware visible-width string slicer
(src/bun.js/bindings/sliceAnsi.cpp together with the shared helpers of
src/bun.js/bindings/ANSIHelpers.h).

Modelling conventions:
- A character span (Latin-1 or UTF-16 code units) is a `List Nat`; a flag
  `w16` selects UTF-16 surrogate decoding, mirroring the C++ template
  parameter `Char` (uint8 vs UChar).
- Cursors (`const Char*`) are indices into that list; `s.getD i 0` reads the
  unit at a cursor.  Spans `[p, p+n)` are `spanBytes s p n`.
- `WTF::String` results are `Option (List Nat)`: `none` is the null string
  (the zero-copy identity signal), `some bytes` is an actual string;
  `emptyString()` is `some []`.
- The external Zig oracles (`Bun__codepointWidth`, `Bun__graphemeBreak`,
  `Bun__isEmojiPresentation`) are fields of an `Oracles` record.  Their C
  return types are uint8: the wrappers `cpWidth` / `gBreak` reduce the
  returned value mod 256, mirroring the ABI truncation.
- `double` start/end indices (always integer-valued or infinite, produced by
  `toIntegerOrInfinity`) are the inductive `DNum`.
- `size_t end == SIZE_MAX` ("unbounded") keeps its sentinel encoding via
  `sizeMax = 2^64 - 1`.
- Loops are fuel-structural recursions so that terms reduce in the kernel;
  fuel bounds are chosen at least as large as the proven iteration counts
  (the termination theorem for the main walk closes the file).
-/

namespace SliceAnsi

/-- Bytes of the half-open span `[p, p+n)` of `s` (C++ `std::span{p, n}`). -/
def spanBytes (s : List Nat) (p n : Nat) : List Nat :=
  (s.drop p).take n

/-- Decimal digit characters of `n` (WTF `String::number` for uint32). -/
def natToDecimalGo : Nat → Nat → List Nat
  | 0, _ => []
  | fuel + 1, n =>
    if n < 10 then [0x30 + n]
    else natToDecimalGo fuel (n / 10) ++ [0x30 + n % 10]

def natToDecimal (n : Nat) : List Nat :=
  natToDecimalGo (n + 1) n

/-- ANSIHelpers.h `isEscapeCharacter`: ANSI escape sequence introducers. -/
def isEscapeCharacter (c : Nat) : Bool :=
  c = 0x1b || c = 0x9b || c = 0x9d || c = 0x90 || c = 0x98 || c = 0x9e || c = 0x9f

/-- Introducers plus the standalone C1 ST 0x9c (the exact SIMD refinement set
of `findEscapeCharacter` and the scalar check `isEscapeCharacter(c) || c == 0x9c`). -/
def isEscOrSt (c : Nat) : Bool :=
  isEscapeCharacter c || c = 0x9c

/-- Offset of the first unit of `l` in the exact escape set, if any. -/
def findEscIn : List Nat → Option Nat
  | [] => none
  | c :: rest => if isEscOrSt c then some 0 else (findEscIn rest).map (· + 1)

/-- ANSIHelpers.h `findEscapeCharacter` on the range `[p, e)`: the SIMD broad
mask (0x10-0x1F, 0x90-0x9F) is always refined by the exact comparison against
{0x1B, 0x90, 0x98, 0x9B, 0x9C, 0x9D, 0x9E, 0x9F}, and the exact set is a
subset of the broad set, so the result is the first index whose unit is in the
exact set (`none` mirrors the nullptr return). -/
def findEscapeCharacter (s : List Nat) (p e : Nat) : Option Nat :=
  (findEscIn ((s.drop p).take (e - p))).map (· + p)

/-- A code unit in printable ASCII `[0x20, 0x7E]` (the wrapping-subtract
SIMD range check `(c - 0x20) <= 0x5E`). -/
def asciiPrintable (c : Nat) : Bool :=
  0x20 ≤ c && c ≤ 0x7e

/-- Length of the leading printable-ASCII run of a list. -/
def countPrintable : List Nat → Nat
  | [] => 0
  | c :: rest => if asciiPrintable c then countPrintable rest + 1 else 0

/-- ANSIHelpers.h `firstNonAsciiPrintable` on the range `[p, e)`: number of
leading units inside `[0x20, 0x7E]` (equals `e - p` when all qualify). -/
def firstNonAsciiPrintable (s : List Nat) (p e : Nat) : Nat :=
  countPrintable ((s.drop p).take (e - p))

/-- ANSIHelpers.h `sgrCloseCode`: SGR open code to its cancelling code
(0 meaning "unknown, use full reset"). -/
def sgrCloseCode (openCode : Nat) : Nat :=
  if openCode = 1 ∨ openCode = 2 then 22
  else if openCode = 3 then 23
  else if openCode = 4 then 24
  else if openCode = 5 ∨ openCode = 6 then 25
  else if openCode = 7 then 27
  else if openCode = 8 then 28
  else if openCode = 9 then 29
  else if (30 ≤ openCode ∧ openCode ≤ 38) ∨ (90 ≤ openCode ∧ openCode ≤ 97) then 39
  else if (40 ≤ openCode ∧ openCode ≤ 48) ∨ (100 ≤ openCode ∧ openCode ≤ 107) then 49
  else if openCode = 53 then 55
  else 0

/-- ANSIHelpers.h `isSgrEndCode`. -/
def isSgrEndCode (code : Nat) : Bool :=
  code = 0 || code = 22 || code = 23 || code = 24 || code = 25 || code = 27 ||
  code = 28 || code = 29 || code = 39 || code = 49 || code = 55

/-- ANSIHelpers.h `decodeUTF16` (ICU `U16_NEXT`) merged with the Latin-1 path
of the slicer: returns `(codepoint, charLen)`.  For `w16 = false` every unit
is one codepoint of length 1 (`charLen = 1; cp = uint8(*p)`). -/
def decodeUnit (w16 : Bool) (s : List Nat) (p len : Nat) : Nat × Nat :=
  let c := s.getD p 0
  if w16 then
    if 0xD800 ≤ c ∧ c ≤ 0xDBFF ∧ p + 1 < len ∧
        0xDC00 ≤ s.getD (p + 1) 0 ∧ s.getD (p + 1) 0 ≤ 0xDFFF then
      (0x10000 + (c - 0xD800) * 0x400 + (s.getD (p + 1) 0 - 0xDC00), 2)
    else (c, 1)
  else (c, 1)

/-!  External Unicode oracles (visible.zig exports). -/

structure Oracles where
  codepointWidth : Nat → Bool → Nat
  graphemeBreak : Nat → Nat → Nat → Bool × Nat
  isEmojiPresentation : Nat → Bool

/-- `Bun__codepointWidth` returns `uint8_t`; the ABI truncates to 8 bits. -/
def cpWidth (o : Oracles) (cp : Nat) (amb : Bool) : Nat :=
  o.codepointWidth cp amb % 256

/-- `Bun__graphemeBreak` writes its `uint8_t* state` out-parameter. -/
def gBreak (o : Oracles) (c1 c2 st : Nat) : Bool × Nat :=
  let r := o.graphemeBreak c1 c2 st
  (r.1, r.2 % 256)

/-!  Grapheme-aware visible width (sliceAnsi.cpp `GraphemeWidthState`). -/

structure GraphemeWidthState where
  firstCp : Nat := 0
  lastCp : Nat := 0
  nonEmojiWidth : Nat := 0
  baseWidth : Nat := 0
  count : Nat := 0
  emojiBase : Bool := false
  keycap : Bool := false
  regionalIndicator : Bool := false
  skinTone : Bool := false
  zwj : Bool := false
  vs15 : Bool := false
  vs16 : Bool := false
deriving Repr, DecidableEq

/-- `GraphemeWidthState::reset(cp, ambiguousIsWide)`. -/
def GraphemeWidthState.reset (o : Oracles) (amb : Bool) (cp : Nat) : GraphemeWidthState :=
  let w := cpWidth o cp amb
  { firstCp := cp
    lastCp := cp
    count := 1
    keycap := decide (cp = 0x20E3)
    regionalIndicator := decide (0x1F1E6 ≤ cp ∧ cp ≤ 0x1F1FF)
    skinTone := decide (0x1F3FB ≤ cp ∧ cp ≤ 0x1F3FF)
    zwj := decide (cp = 0x200D)
    vs15 := false
    vs16 := false
    baseWidth := w
    nonEmojiWidth := w
    emojiBase := o.isEmojiPresentation cp }

/-- `GraphemeWidthState::add(cp, ambiguousIsWide)`.  The uint16 sum
`nonEmojiWidth + w` is taken mod 2^16 before the 1023 clamp. -/
def GraphemeWidthState.add (gs : GraphemeWidthState) (o : Oracles) (amb : Bool)
    (cp : Nat) : GraphemeWidthState :=
  let w := cpWidth o cp amb
  { gs with
    lastCp := cp
    count := if gs.count < 255 then gs.count + 1 else gs.count
    keycap := gs.keycap || decide (cp = 0x20E3)
    regionalIndicator := gs.regionalIndicator || decide (0x1F1E6 ≤ cp ∧ cp ≤ 0x1F1FF)
    skinTone := gs.skinTone || decide (0x1F3FB ≤ cp ∧ cp ≤ 0x1F3FF)
    zwj := gs.zwj || decide (cp = 0x200D)
    vs15 := gs.vs15 || decide (cp = 0xFE0E)
    vs16 := gs.vs16 || decide (cp = 0xFE0F)
    nonEmojiWidth :=
      if w > 0 then
        let newWidth := (gs.nonEmojiWidth + w) % 65536
        if newWidth < 1023 then newWidth else 1023
      else gs.nonEmojiWidth }

/-- `GraphemeWidthState::width()`.  The fallback returns the accumulated
`nonEmojiWidth` truncated by the `uint8_t` cast of the return type. -/
def GraphemeWidthState.width (gs : GraphemeWidthState) : Nat :=
  if gs.count = 0 then 0
  else if gs.regionalIndicator ∧ gs.count ≥ 2 then 2
  else if gs.keycap then 2
  else if gs.regionalIndicator then 1
  else if gs.emojiBase ∧ (gs.skinTone ∨ gs.zwj) then 2
  else if gs.vs15 ∨ gs.vs16 then
    if gs.baseWidth = 2 then 2
    else if gs.vs16 then
      if (0x30 ≤ gs.firstCp ∧ gs.firstCp ≤ 0x39) ∨ gs.firstCp = 0x23 ∨ gs.firstCp = 0x2A then 1
      else if gs.firstCp < 0x80 then 1
      else 2
    else 1
  else gs.nonEmojiWidth % 256

/-- State of the accumulator after `reset(cp)` followed by `add` for each
element of `cps` — i.e. after accumulating the cluster `cp :: cps`. -/
def accumCluster (o : Oracles) (amb : Bool) (cp : Nat) (cps : List Nat) :
    GraphemeWidthState :=
  cps.foldl (fun gs c => gs.add o amb c) (GraphemeWidthState.reset o amb cp)

/-- Sum of the (uint8-truncated) oracle widths over a codepoint sequence. -/
def clusterWidthSum (o : Oracles) (amb : Bool) (cps : List Nat) : Nat :=
  (cps.map (fun c => cpWidth o c amb)).sum

/-!  SGR style state tracking (sliceAnsi.cpp `SgrStyleState`). -/

structure SgrEntry where
  endCode : List Nat
  openCode : List Nat
deriving Repr, DecidableEq

structure SgrStyleState where
  entries : List SgrEntry := []
deriving Repr, DecidableEq

def SgrStyleState.applyReset (_ : SgrStyleState) : SgrStyleState := ⟨[]⟩

/-- `removeAllMatching` keeps the non-matching entries in order. -/
def SgrStyleState.applyEnd (st : SgrStyleState) (endCodeStr : List Nat) : SgrStyleState :=
  ⟨st.entries.filter fun e => decide (e.endCode ≠ endCodeStr)⟩

def SgrStyleState.applyStart (st : SgrStyleState) (openCodeStr endCodeStr : List Nat) :
    SgrStyleState :=
  ⟨(st.entries.filter fun e => decide (e.endCode ≠ endCodeStr)) ++
    [⟨endCodeStr, openCodeStr⟩]⟩

def SgrStyleState.emitOpenCodes (st : SgrStyleState) : List Nat :=
  st.entries.foldl (fun acc e => acc ++ e.openCode) []

/-- Closes are emitted in reverse insertion order. -/
def SgrStyleState.emitCloseCodes (st : SgrStyleState) : List Nat :=
  st.entries.reverse.foldl (fun acc e => acc ++ e.endCode) []

def SgrStyleState.isEmpty (st : SgrStyleState) : Bool :=
  st.entries.isEmpty

/-- `makeSgrCode`: `ESC [ code m` (or C1 `0x9B code m`). -/
def makeSgrCode (isC1 : Bool) (code : Nat) : List Nat :=
  (if isC1 then [0x9b] else [0x1b, 0x5b]) ++ natToDecimal code ++ [0x6d]

def sgrJoinSemi : List Nat → List Nat
  | [] => []
  | [c] => natToDecimal c
  | c :: rest => natToDecimal c ++ 0x3b :: sgrJoinSemi rest

/-- `makeSgrCodeMulti`: `ESC [ a;b;...;z m`. -/
def makeSgrCodeMulti (isC1 : Bool) (codes : List Nat) : List Nat :=
  (if isC1 then [0x9b] else [0x1b, 0x5b]) ++ sgrJoinSemi codes ++ [0x6d]

/-!  SGR parameter parsing (sliceAnsi.cpp `SgrParams`, `parseSgrParams`). -/

structure SgrParams where
  data : List Nat
  overflow : Bool
  hasColon : Bool
deriving Repr, DecidableEq

def kMaxSgrParams : Nat := 32

/-- Post-loop finalization: push the trailing parameter when a digit was in
progress or no parameter was pushed at all. -/
def sgrFinalize (current : Nat) (hasDigit : Bool) (acc : List Nat) (hc : Bool) :
    SgrParams :=
  if hasDigit ∨ acc.length = 0 then
    if acc.length ≥ kMaxSgrParams then ⟨acc, true, hc⟩
    else ⟨acc ++ [current], false, hc⟩
  else ⟨acc, false, hc⟩

def parseSgrParamsLoop : List Nat → Nat → Bool → List Nat → Bool → SgrParams
  | [], current, hasDigit, acc, hc => sgrFinalize current hasDigit acc hc
  | c :: rest, current, hasDigit, acc, hc =>
    if 0x30 ≤ c ∧ c ≤ 0x39 then
      -- Clamp: once the accumulator reaches 100000 further digits are ignored.
      parseSgrParamsLoop rest
        (if current < 100000 then current * 10 + (c - 0x30) else current)
        true acc hc
    else if c = 0x3b ∨ c = 0x3a then
      let hc2 := hc || decide (c = 0x3a)
      if acc.length ≥ kMaxSgrParams then ⟨acc, true, hc2⟩
      else parseSgrParamsLoop rest 0 false (acc ++ [if hasDigit then current else 0]) hc2
    else sgrFinalize current hasDigit acc hc

/-- `parseSgrParams(paramStart, paramEnd)` over the parameter bytes. -/
def parseSgrParams (cs : List Nat) : SgrParams :=
  parseSgrParamsLoop cs 0 false [] false

/-- Parameter-application loop of `applySgrToState` (index `i` over the
decoded parameters; 38/48 consume their colour sub-parameters). -/
def applySgrLoopGo (isC1 : Bool) (params : List Nat) :
    Nat → Nat → SgrStyleState → SgrStyleState
  | 0, _, st => st
  | fuel + 1, i, st =>
    if i < params.length then
      let code := params.getD i 0
      if code = 0 then applySgrLoopGo isC1 params fuel (i + 1) st.applyReset
      else if code = 38 ∨ code = 48 then
        let defaultClose := if code = 38 then 39 else 49
        let endStr := makeSgrCode false defaultClose
        if i + 1 < params.length then
          let colorType := params.getD (i + 1) 0
          if colorType = 5 ∧ i + 2 < params.length then
            applySgrLoopGo isC1 params fuel (i + 3)
              (st.applyStart (makeSgrCodeMulti isC1 [code, 5, params.getD (i + 2) 0]) endStr)
          else if colorType = 2 ∧ i + 4 < params.length then
            applySgrLoopGo isC1 params fuel (i + 5)
              (st.applyStart
                (makeSgrCodeMulti isC1
                  [code, 2, params.getD (i + 2) 0, params.getD (i + 3) 0, params.getD (i + 4) 0])
                endStr)
          else applySgrLoopGo isC1 params fuel (i + 1)
            (st.applyStart (makeSgrCode isC1 code) endStr)
        else applySgrLoopGo isC1 params fuel (i + 1)
          (st.applyStart (makeSgrCode isC1 code) endStr)
      else if isSgrEndCode code then
        applySgrLoopGo isC1 params fuel (i + 1) (st.applyEnd (makeSgrCode false code))
      else
        let closeCode := sgrCloseCode code
        if closeCode ≠ 0 then
          applySgrLoopGo isC1 params fuel (i + 1)
            (st.applyStart (makeSgrCode isC1 code) (makeSgrCode false closeCode))
        else
          applySgrLoopGo isC1 params fuel (i + 1)
            (st.applyStart (makeSgrCode isC1 code) (makeSgrCode false 0))
    else st

/-- `applySgrToState(state, seqStart, seqEnd)` on the full sequence bytes. -/
def applySgrToState (st : SgrStyleState) (seq : List Nat) : SgrStyleState :=
  let isC1 := decide (seq.getD 0 0 = 0x9b)
  let paramBytes := if isC1 then (seq.drop 1).dropLast else (seq.drop 2).dropLast
  let params := parseSgrParams paramBytes
  -- Overflowed param count is treated like a colon: the whole sequence is opaque.
  if params.hasColon || params.overflow then
    let firstParam := params.data.getD 0 0
    let closeCode := sgrCloseCode firstParam
    let endStr := if closeCode ≠ 0 then makeSgrCode false closeCode else makeSgrCode false 0
    st.applyStart seq endStr
  else if params.data.isEmpty then st.applyReset
  else applySgrLoopGo isC1 params.data (params.data.length + 1) 0 st

/-- Loop of `shouldIncludeSgrAfterEnd`, accumulating the
`(hasStartFragment, hasClosingEffect)` flags. -/
def shouldIncludeSgrLoopGo (params : List Nat) (active : SgrStyleState) :
    Nat → Nat → Bool → Bool → Bool × Bool
  | 0, _, hasStart, hasClose => (hasStart, hasClose)
  | fuel + 1, i, hasStart, hasClose =>
    if i < params.length then
      let code := params.getD i 0
      if code = 0 then
        shouldIncludeSgrLoopGo params active fuel (i + 1) hasStart
          (hasClose || !active.isEmpty)
      else if isSgrEndCode code then
        let endStr := makeSgrCode false code
        shouldIncludeSgrLoopGo params active fuel (i + 1) hasStart
          (hasClose || active.entries.any fun e => decide (e.endCode = endStr))
      else if code = 38 ∨ code = 48 then
        let skip :=
          if i + 1 < params.length then
            let colorType := params.getD (i + 1) 0
            if colorType = 5 ∧ i + 2 < params.length then 2
            else if colorType = 2 ∧ i + 4 < params.length then 4
            else 0
          else 0
        shouldIncludeSgrLoopGo params active fuel (i + 1 + skip) true hasClose
      else shouldIncludeSgrLoopGo params active fuel (i + 1) true hasClose
    else (hasStart, hasClose)

/-- sliceAnsi.cpp `shouldIncludeSgrAfterEnd`: a post-cut SGR sequence is kept
iff it has closing effect and no new start code. -/
def shouldIncludeSgrAfterEnd (params : SgrParams) (active : SgrStyleState) : Bool :=
  let r := shouldIncludeSgrLoopGo params.data active (params.data.length + 1) 0 false false
  r.2 && !r.1

/-!  Decomposed view of an SGR parameter list, used to characterize
`shouldIncludeSgrAfterEnd` (same index walk and 38/48 sub-parameter skips). -/

inductive SgrItem where
  | reset
  | endc (n : Nat)
  | startFrag
deriving Repr, DecidableEq

def sgrDecomposeGo (params : List Nat) : Nat → Nat → List SgrItem
  | 0, _ => []
  | fuel + 1, i =>
    if i < params.length then
      let code := params.getD i 0
      if code = 0 then .reset :: sgrDecomposeGo params fuel (i + 1)
      else if isSgrEndCode code then .endc code :: sgrDecomposeGo params fuel (i + 1)
      else if code = 38 ∨ code = 48 then
        let skip :=
          if i + 1 < params.length then
            let colorType := params.getD (i + 1) 0
            if colorType = 5 ∧ i + 2 < params.length then 2
            else if colorType = 2 ∧ i + 4 < params.length then 4
            else 0
          else 0
        .startFrag :: sgrDecomposeGo params fuel (i + 1 + skip)
      else .startFrag :: sgrDecomposeGo params fuel (i + 1)
    else []

def sgrDecompose (params : List Nat) : List SgrItem :=
  sgrDecomposeGo params (params.length + 1) 0

/-- An item with closing effect against the active styles: the reset 0 with
active styles present, or an end code recorded as the close of an active style. -/
def sgrItemClosing (active : SgrStyleState) : SgrItem → Bool
  | .reset => !active.isEmpty
  | .endc n => active.entries.any fun e => decide (e.endCode = makeSgrCode false n)
  | .startFrag => false

def sgrItemIsStart : SgrItem → Bool
  | .startFrag => true
  | _ => false

/-- Modelled from the spec: the pending-close filter of §4.2 as written —
"a sequence qualifies iff, after decomposition, EVERY parameter is either the
reset 0 (with active styles present) or an end-code that matches an
actually-active style".  Used only to compare against the source function
`shouldIncludeSgrAfterEnd`. -/
def specShouldIncludeSgrAfterEnd (params : SgrParams) (active : SgrStyleState) : Bool :=
  (sgrDecompose params.data).all (sgrItemClosing active)

/-!  ANSI sequence tokenization (sliceAnsi.cpp `parseCsi`, `parseHyperlink`,
`parseControlString`, `tryParseAnsi`). -/

inductive TokenType where
  | Character
  | Sgr
  | Hyperlink
  | Control
deriving Repr, DecidableEq

/-- CSI scan loop over the bytes after the introducer.  The list argument is
the suffix of the input starting at absolute index `it`; returns
`(endCursor, isSgr, isCanonicalSgr)`.  Reaching the end of input consumes
everything (unterminated CSI); an interior byte outside the parameter
(0x30-0x3F), intermediate (0x20-0x2F) and final (0x40-0x7E) ranges returns
the cursor pointing at that byte with `isSgr = false`. -/
def parseCsiGo : List Nat → Nat → Bool → Nat × Bool × Bool
  | [], it, isCanon => (it, false, isCanon)
  | c :: rest, it, isCanon =>
    if 0x40 ≤ c ∧ c ≤ 0x7E then (it + 1, decide (c = 0x6d) && isCanon, isCanon)
    else if 0x30 ≤ c ∧ c ≤ 0x3F then
      let isCanon2 :=
        if ¬ (0x30 ≤ c ∧ c ≤ 0x39) ∧ c ≠ 0x3b ∧ c ≠ 0x3a then false else isCanon
      parseCsiGo rest (it + 1) isCanon2
    else if 0x20 ≤ c ∧ c ≤ 0x2F then parseCsiGo rest (it + 1) false
    else (it, false, isCanon)

/-- sliceAnsi.cpp `parseCsi`: `none` mirrors the nullptr (not-a-CSI) return. -/
def parseCsi (s : List Nat) (p len : Nat) : Option (Nat × Bool × Bool) :=
  let c := s.getD p 0
  if c = 0x1b then
    if len - p < 2 ∨ s.getD (p + 1) 0 ≠ 0x5b then none
    else some (parseCsiGo ((s.drop (p + 2)).take (len - (p + 2))) (p + 2) true)
  else if c = 0x9b then
    some (parseCsiGo ((s.drop (p + 1)).take (len - (p + 1))) (p + 1) true)
  else none

structure HlOut where
  endPos : Nat
  isOpen : Bool
  code : List Nat
  closePfx : List Nat
  term : List Nat
deriving Repr, DecidableEq

/-- Close-sequence prefix matching the flavour of the open
(`ESC ] 8 ; ;` or `0x9D 8 ; ;`). -/
def hlClosePfx (isEscOsc : Bool) : List Nat :=
  if isEscOsc then [0x1b, 0x5d, 0x38, 0x3b, 0x3b] else [0x9d, 0x38, 0x3b, 0x3b]

/-- Offset of the first occurrence of unit `t` in a list. -/
def findCharIn (t : Nat) : List Nat → Option Nat
  | [] => none
  | c :: rest => if c = t then some 0 else (findCharIn t rest).map (· + 1)

/-- URI/terminator scan of `parseHyperlink`: the list argument is the suffix
starting at absolute index `q` (initially `uriStart`). -/
def hlScanGo (s : List Nat) (p uriStart : Nat) (isEscOsc : Bool) :
    List Nat → Nat → Option HlOut
  | [], _ => none
  | c :: rest, q =>
    if c = 0x07 then
      some ⟨q + 1, decide (q > uriStart), spanBytes s p (q + 1 - p), hlClosePfx isEscOsc, [0x07]⟩
    else if c = 0x1b ∧ rest.head? = some 0x5c then
      some ⟨q + 2, decide (q > uriStart), spanBytes s p (q + 2 - p), hlClosePfx isEscOsc,
        [0x1b, 0x5c]⟩
    else if c = 0x9c then
      some ⟨q + 1, decide (q > uriStart), spanBytes s p (q + 1 - p), hlClosePfx isEscOsc, [0x9c]⟩
    else hlScanGo s p uriStart isEscOsc rest (q + 1)

/-- sliceAnsi.cpp `parseHyperlink` (`OSC 8 ; params ; URI TERMINATOR`).
An empty URI classifies as close.  Unterminated hyperlinks are no-match. -/
def parseHyperlink (s : List Nat) (p len : Nat) : Option HlOut :=
  let c := s.getD p 0
  if c = 0x1b ∧ len - p ≥ 4 ∧ s.getD (p + 1) 0 = 0x5d ∧ s.getD (p + 2) 0 = 0x38 ∧
      s.getD (p + 3) 0 = 0x3b then
    match (findCharIn 0x3b ((s.drop (p + 4)).take (len - (p + 4)))).map (· + (p + 4)) with
    | none => none
    | some semi =>
      hlScanGo s p (semi + 1) true ((s.drop (semi + 1)).take (len - (semi + 1))) (semi + 1)
  else if c = 0x9d ∧ len - p ≥ 3 ∧ s.getD (p + 1) 0 = 0x38 ∧ s.getD (p + 2) 0 = 0x3b then
    match (findCharIn 0x3b ((s.drop (p + 3)).take (len - (p + 3)))).map (· + (p + 3)) with
    | none => none
    | some semi =>
      hlScanGo s p (semi + 1) false ((s.drop (semi + 1)).take (len - (semi + 1))) (semi + 1)
  else none

/-- Terminator scan of `parseControlString` from absolute index `it`. -/
def ctrlScanGo (supportsBel : Bool) : List Nat → Nat → Option Nat
  | [], _ => none
  | c :: rest, it =>
    if supportsBel ∧ c = 0x07 then some (it + 1)
    else if c = 0x1b ∧ rest.head? = some 0x5c then some (it + 2)
    else if c = 0x9c then some (it + 1)
    else ctrlScanGo supportsBel rest (it + 1)

/-- sliceAnsi.cpp `parseControlString` (OSC non-8, DCS, SOS, PM, APC,
standalone ST).  Unterminated control strings return no-match so that a lone
introducer does not swallow the rest of the string. -/
def parseControlString (s : List Nat) (p len : Nat) : Option Nat :=
  let c := s.getD p 0
  if c = 0x1b then
    if len - p < 2 then none
    else
      let nxt := s.getD (p + 1) 0
      if nxt = 0x5d then ctrlScanGo true ((s.drop (p + 2)).take (len - (p + 2))) (p + 2)
      else if nxt = 0x50 ∨ nxt = 0x58 ∨ nxt = 0x5e ∨ nxt = 0x5f then
        ctrlScanGo false ((s.drop (p + 2)).take (len - (p + 2))) (p + 2)
      else if nxt = 0x5c then some (p + 2)
      else none
  else if c = 0x9d then ctrlScanGo true ((s.drop (p + 1)).take (len - (p + 1))) (p + 1)
  else if c = 0x90 ∨ c = 0x98 ∨ c = 0x9e ∨ c = 0x9f then
    ctrlScanGo false ((s.drop (p + 1)).take (len - (p + 1))) (p + 1)
  else if c = 0x9c then some (p + 1)
  else none

structure AnsiToken where
  endPos : Nat
  type : TokenType
  hlOpen : Bool := false
  hlCode : List Nat := []
  hlClosePfx : List Nat := []
  hlTerm : List Nat := []
deriving Repr, DecidableEq

/-- sliceAnsi.cpp `tryParseAnsi`: hyperlink, then control string, then CSI.
`none` means no-match: the caller treats the byte as a visible codepoint. -/
def tryParseAnsi (s : List Nat) (p len : Nat) : Option AnsiToken :=
  let c := s.getD p 0
  match (if c = 0x1b ∨ c = 0x9d then parseHyperlink s p len else none) with
  | some h => some ⟨h.endPos, .Hyperlink, h.isOpen, h.code, h.closePfx, h.term⟩
  | none =>
    match (if c = 0x1b ∨ c = 0x9d ∨ c = 0x90 ∨ c = 0x98 ∨ c = 0x9e ∨ c = 0x9f ∨ c = 0x9c
           then parseControlString s p len else none) with
    | some e => some ⟨e, .Control, false, [], [], []⟩
    | none =>
      if c = 0x1b ∨ c = 0x9b then
        match parseCsi s p len with
        | some (e, isSgr, _) => some ⟨e, if isSgr then .Sgr else .Control, false, [], [], []⟩
        | none => none
      else none

/-!  Slice bound resolution (sliceAnsi.cpp `SliceBounds`,
`resolveSliceBounds`).  Start/end indices are integer-valued doubles or
infinities produced by `toIntegerOrInfinity`. -/

inductive DNum where
  | fin (i : Int)
  | posInf
  | negInf
deriving Repr, DecidableEq

def DNum.isNeg : DNum → Bool
  | .fin i => decide (i < 0)
  | .posInf => false
  | .negInf => true

def DNum.isFin : DNum → Bool
  | .fin _ => true
  | _ => false

/-- `d + w` for a natural `w` (exact in double space for the sizes involved). -/
def DNum.addNat (d : DNum) (w : Nat) : DNum :=
  match d with
  | .fin i => .fin (i + w)
  | .posInf => .posInf
  | .negInf => .negInf

def DNum.ltNat (d : DNum) (n : Nat) : Bool :=
  match d with
  | .fin i => decide (i < (n : Int))
  | .posInf => false
  | .negInf => true

def DNum.gtNat (d : DNum) (n : Nat) : Bool :=
  match d with
  | .fin i => decide (i > (n : Int))
  | .posInf => true
  | .negInf => false

def DNum.dlt : DNum → DNum → Bool
  | .fin a, .fin b => decide (a < b)
  | .fin _, .posInf => true
  | .negInf, .fin _ => true
  | .negInf, .posInf => true
  | _, _ => false

def DNum.toNatClamp : DNum → Nat
  | .fin i => i.toNat
  | .posInf => 0
  | .negInf => 0

structure SliceBounds where
  start : Nat
  endW : Nat
  cutStart : Bool
  cutEnd : Bool
  empty : Bool
deriving Repr, DecidableEq

/-- sliceAnsi.cpp `resolveSliceBounds`: clamp in double space, cast only after
the range is verified non-empty. -/
def resolveSliceBounds (startD endD : DNum) (totalW : Nat) : SliceBounds :=
  let f0 := if startD.isNeg then startD.addNat totalW else startD
  let t0 := if endD.isNeg then endD.addNat totalW else endD
  let f1 := if f0.isNeg then .fin 0 else f0
  let t1 := if t0.gtNat totalW then .fin totalW else t0
  if ¬ (DNum.dlt f1 t1) then ⟨0, 0, false, false, true⟩
  else
    let s := f1.toNatClamp
    let e := t1.toNatClamp
    ⟨s, e, decide (s > 0), decide (e < totalW), false⟩

/-!  Total-width pre-pass (sliceAnsi.cpp `computeTotalWidth`), used only when
start or end is negative. -/

/-- Break decision shared by the width pre-pass and the emit walk
(CR/LF special cases, then the grapheme-break oracle).  Returns
`(shouldBreak, breakState)`. -/
def breakDecision (o : Oracles) (hasPrev : Bool) (prevCp cp breakState : Nat) :
    Bool × Nat :=
  if !hasPrev then (true, breakState)
  else if prevCp = 0x0D ∧ cp = 0x0A then (false, breakState)
  else if prevCp = 0x0D ∨ prevCp = 0x0A ∨ cp = 0x0D ∨ cp = 0x0A then (true, 0)
  else gBreak o prevCp cp breakState

/-- Main loop of `computeTotalWidth`; fuel-structural (see
`tryParseAnsi_advance` for the strict cursor advance that bounds the
iteration count). -/
def computeTotalWidthLoopF (w16 : Bool) (s : List Nat) (o : Oracles) (amb : Bool) :
    Nat → Nat → Nat → Nat → Bool → Nat → GraphemeWidthState → Option Nat
  | fuel, p, totalW, prevCp, hasPrev, breakState, gs =>
    if p < s.length then
      match fuel with
      | 0 => none
      | fuel + 1 =>
        match (if isEscOrSt (s.getD p 0) then tryParseAnsi s p s.length else none) with
        | some tok =>
          computeTotalWidthLoopF w16 s o amb fuel tok.endPos totalW prevCp hasPrev breakState gs
        | none =>
          let d := decodeUnit w16 s p s.length
          let bd := breakDecision o hasPrev prevCp d.1 breakState
          if bd.1 then
            computeTotalWidthLoopF w16 s o amb fuel (p + d.2)
              (if hasPrev then totalW + gs.width else totalW) d.1 true bd.2
              (GraphemeWidthState.reset o amb d.1)
          else
            computeTotalWidthLoopF w16 s o amb fuel (p + d.2) totalW d.1 true bd.2
              (gs.add o amb d.1)
    else some (if hasPrev then totalW + gs.width else totalW)

/-- sliceAnsi.cpp `computeTotalWidth(input, asciiPrefix, ambiguousIsWide)`:
the printable-ASCII run contributes one column per unit with the last unit
reserved to seed the grapheme state. -/
def computeTotalWidth (w16 : Bool) (s : List Nat) (o : Oracles) (amb : Bool)
    (asciiRun : Nat) : Nat :=
  let totalW0 := if asciiRun > 0 then asciiRun - 1 else 0
  let seed := s.getD (asciiRun - 1) 0
  let init :=
    if asciiRun > 0 then (seed, true, GraphemeWidthState.reset o amb seed)
    else (0, false, ({} : GraphemeWidthState))
  (computeTotalWidthLoopF w16 s o amb (s.length + 1) asciiRun totalW0
    init.1 init.2.1 0 init.2.2).getD 0

/-!  Single-pass streaming emit walk (sliceAnsi.cpp `emitSliceStreaming`).
The mutable cursor `p` of the C++ walk is threaded separately from the rest
of the mutable locals, which live in `WalkState`. -/

def sizeMax : Nat := 2 ^ 64 - 1

/-- The parameters of one `emitSliceStreaming` call that stay fixed during
the walk (after the ellipsis-budget resolution). -/
structure WalkCtx where
  s : List Nat
  w16 : Bool
  o : Oracles
  ambiguousIsWide : Bool
  start : Nat
  endW : Nat
  endUnbounded : Bool
  specEnd : Nat
  ellipsis : List Nat
  needStartEllipsis : Bool
  ellipsisEndBudget : Nat

/-- An entry of the pending-ANSI buffer: the cursor range of the sequence,
its kind, and the captured hyperlink parse state. -/
structure PendingEntry where
  startPos : Nat
  endPos : Nat
  type : TokenType
  hlOpen : Bool
  hlCode : List Nat
  hlClosePfx : List Nat
  hlTerm : List Nat
deriving Repr, DecidableEq

structure WalkState where
  position : Nat := 0
  includeFlag : Bool := false
  hasPrev : Bool := false
  prevVisCp : Nat := 0
  breakState : Nat := 0
  gs : GraphemeWidthState := {}
  activeStyles : SgrStyleState := {}
  activeHyperlink : Bool := false
  activeHlCode : List Nat := []
  activeHlClosePfx : List Nat := []
  activeHlTerm : List Nat := []
  pending : List PendingEntry := []
  result : List Nat := []
  specZone : List Nat := []
  inSpecZone : Bool := false
  sawCutEnd : Bool := false
deriving Repr, DecidableEq

/-- Parameter bytes of a pending SGR entry (between the CSI introducer and
the final `m`), as re-parsed by the close-only filter in `flushPending`. -/
def pendingParamBytes (ctx : WalkCtx) (pa : PendingEntry) : List Nat :=
  let paramStart := if ctx.s.getD pa.startPos 0 = 0x9b then pa.startPos + 1 else pa.startPos + 2
  spanBytes ctx.s paramStart (pa.endPos - 1 - paramStart)

/-- Processing of one pending entry inside `flushPending(filterCloseOnly)`. -/
def flushOne (ctx : WalkCtx) (filter : Bool) (st : WalkState) (pa : PendingEntry) :
    WalkState :=
  match pa.type with
  | .Sgr =>
    let seq := spanBytes ctx.s pa.startPos (pa.endPos - pa.startPos)
    if filter then
      let params := parseSgrParams (pendingParamBytes ctx pa)
      -- Overflow/colon: the close effect is not locally decidable — skip.
      if params.overflow ∨ params.hasColon then st
      else if ¬ shouldIncludeSgrAfterEnd params st.activeStyles then st
      else
        { st with activeStyles := applySgrToState st.activeStyles seq
                  result := st.result ++ seq }
    else
      { st with activeStyles := applySgrToState st.activeStyles seq
                result := st.result ++ seq }
  | .Hyperlink =>
    let isClose := !pa.hlOpen
    if filter ∧ (¬ isClose ∨ ¬ st.activeHyperlink) then st
    else
      let seq := spanBytes ctx.s pa.startPos (pa.endPos - pa.startPos)
      if pa.hlOpen then
        { st with activeHyperlink := true
                  activeHlCode := pa.hlCode
                  activeHlClosePfx := pa.hlClosePfx
                  activeHlTerm := pa.hlTerm
                  result := st.result ++ seq }
      else { st with activeHyperlink := false, result := st.result ++ seq }
  | .Control =>
    if filter then st
    else { st with result := st.result ++ spanBytes ctx.s pa.startPos (pa.endPos - pa.startPos) }
  | .Character => st

/-- sliceAnsi.cpp `flushPending(filterCloseOnly)`: process the buffered
sequences in order, then clear the buffer. -/
def flushPending (ctx : WalkCtx) (filter : Bool) (st : WalkState) : WalkState :=
  let st2 := st.pending.foldl (flushOne ctx filter) st
  { st2 with pending := [] }

/-- Window-entry emission: opens, then start ellipsis, then the active
hyperlink open sequence. -/
def enterWindow (ctx : WalkCtx) (st : WalkState) : WalkState :=
  let r := st.result ++ st.activeStyles.emitOpenCodes
  let r := if ctx.needStartEllipsis then r ++ ctx.ellipsis else r
  let r := if st.activeHyperlink then r ++ st.activeHlCode else r
  { st with includeFlag := true, result := r }

/-- sliceAnsi.cpp `processVisibleCp(cp, charLen)` at cursor `p` (the caller
advances the cursor by `charLen` when the returned flag is `true`;
`false` signals the past-end break out of the walk). -/
def processVisibleCp (ctx : WalkCtx) (p : Nat) (st : WalkState) (cp charLen : Nat) :
    WalkState × Bool :=
  let bd := breakDecision ctx.o st.hasPrev st.prevVisCp cp st.breakState
  let st := { st with breakState := bd.2 }
  if bd.1 then
    let st := if st.hasPrev then { st with position := st.position + st.gs.width } else st
    if ¬ ctx.endUnbounded ∧ st.position ≥ ctx.specEnd then
      (flushPending ctx true { st with sawCutEnd := true }, false)
    else
      let st := if ¬ st.includeFlag ∧ st.position ≥ ctx.start then enterWindow ctx st else st
      let st :=
        if st.includeFlag then
          let st := flushPending ctx false st
          if ¬ ctx.endUnbounded ∧ st.position ≥ ctx.endW ∧ ctx.ellipsisEndBudget > 0 then
            { st with inSpecZone := true, specZone := st.specZone ++ spanBytes ctx.s p charLen }
          else { st with result := st.result ++ spanBytes ctx.s p charLen }
        else { st with pending := [] }
      ({ st with gs := GraphemeWidthState.reset ctx.o ctx.ambiguousIsWide cp
                 prevVisCp := cp, hasPrev := true }, true)
  else
    -- JOIN: continuation codepoint, position unchanged, pending is inside the cluster.
    let st :=
      if st.includeFlag then
        let st := flushPending ctx false st
        if st.inSpecZone then { st with specZone := st.specZone ++ spanBytes ctx.s p charLen }
        else { st with result := st.result ++ spanBytes ctx.s p charLen }
      else { st with pending := [] }
    ({ st with gs := st.gs.add ctx.o ctx.ambiguousIsWide cp
               prevVisCp := cp, hasPrev := true }, true)

/-- Emission step of the ASCII bulk path: route `emitN` width-1 columns to
the main buffer and/or the speculative zone, then advance `position`. -/
def emitBulk (ctx : WalkCtx) (p emitN : Nat) (st : WalkState) : WalkState :=
  let st :=
    if ctx.ellipsisEndBudget > 0 ∧ st.position < ctx.endW ∧ ¬ ctx.endUnbounded then
      let toMain := min (ctx.endW - st.position) emitN
      let st := { st with result := st.result ++ spanBytes ctx.s p toMain }
      if emitN > toMain then
        { st with inSpecZone := true
                  specZone := st.specZone ++ spanBytes ctx.s (p + toMain) (emitN - toMain) }
      else st
    else if st.inSpecZone ∨ (¬ ctx.endUnbounded ∧ st.position ≥ ctx.endW) then
      { st with inSpecZone := true, specZone := st.specZone ++ spanBytes ctx.s p emitN }
    else { st with result := st.result ++ spanBytes ctx.s p emitN }
  { st with position := st.position + emitN }

/-- Result of the bulk ASCII section: stop the walk (`goto walkDone`), or
continue with the number of code units the bulk consumed (the C++ advances
the cursor `p` by exactly that amount across its `p += …` statements). -/
inductive BulkRes where
  | done (st : WalkState)
  | cont (d : Nat) (st : WalkState)

/-- `position += gs.width(); hasPrev = false;` — commit the pending cluster. -/
def finalizeCluster (st : WalkState) : WalkState :=
  { st with position := st.position + st.gs.width, hasPrev := false }

/-- `sawCutEnd = true;` -/
def markCut (st : WalkState) : WalkState :=
  { st with sawCutEnd := true }

/-- `position += n;` -/
def stepPosition (st : WalkState) (n : Nat) : WalkState :=
  { st with position := st.position + n }

/-- Emit block of the bulk section (`if (bulkN > 0 && include)`): flush
pending, emit up to `specEnd`, early-exit on `position ≥ specEnd`.
`p1` is the absolute cursor after the pre-include skip; the returned `cont`
delta counts from `p1`'s base offset `skipN`. -/
def bulkEmit (ctx : WalkCtx) (p1 skipN : Nat) (st3 : WalkState) (bulkN1 : Nat) : BulkRes :=
  let st4 := flushPending ctx false st3
  let emitN := if ctx.endUnbounded then bulkN1 else min (ctx.specEnd - st4.position) bulkN1
  let st5 := if emitN > 0 then emitBulk ctx p1 emitN st4 else st4
  if ¬ ctx.endUnbounded ∧ st5.position ≥ ctx.specEnd then .done (markCut st5)
  else .cont (skipN + emitN + (bulkN1 - emitN)) (stepPosition st5 (bulkN1 - emitN))

/-- Skip/include/emit part of the bulk section, after the pending cluster has
been finalized. -/
def bulkRest (ctx : WalkCtx) (p : Nat) (st1 : WalkState) (bulkN : Nat) : BulkRes :=
  let skipN := if ¬ st1.includeFlag ∧ st1.position < ctx.start then
      min (ctx.start - st1.position) bulkN
    else 0
  let bulkN1 := bulkN - skipN
  let st2 := stepPosition st1 skipN
  let st3 := if bulkN1 > 0 ∧ ¬ st2.includeFlag ∧ st2.position ≥ ctx.start then
      enterWindow ctx st2
    else st2
  if bulkN1 > 0 ∧ st3.includeFlag then bulkEmit ctx (p + skipN) skipN st3 bulkN1
  else .cont (skipN + bulkN1) (stepPosition st3 bulkN1)

/-- The bulk ASCII-printable section of the main walk (sliceAnsi.cpp lines
processing `asciiLen - 1` width-1 break characters at once): finalize the
pending cluster, fast-forward pre-include columns, handle the include
transition, emit against the spec-zone partition, and early-exit on
`position ≥ specEnd`.  `done` corresponds to `goto walkDone`. -/
def bulkProcess (ctx : WalkCtx) (p : Nat) (st : WalkState) (runEnd : Nat) : BulkRes :=
  let asciiLen := firstNonAsciiPrintable ctx.s p runEnd
  let bulkN := if asciiLen > 1 then asciiLen - 1 else 0
  if bulkN = 0 then .cont 0 st
  else if st.hasPrev then
    let st1 := finalizeCluster st
    if ¬ ctx.endUnbounded ∧ st1.position ≥ ctx.specEnd then
      .done (flushPending ctx true (markCut st1))
    else bulkRest ctx p st1 bulkN
  else bulkRest ctx p st bulkN

/-- Result of one iteration of the outer walk: stop (`goto walkDone` /
natural break) or continue at a new cursor. -/
inductive StepRes where
  | done (st : WalkState)
  | cont (p : Nat) (st : WalkState)

/-- Processing of a single visible codepoint at the outer-loop level (used
for SIMD false positives and failed ANSI parses). -/
def singleVisibleStep (ctx : WalkCtx) (p : Nat) (st : WalkState) : StepRes :=
  let d := decodeUnit ctx.w16 ctx.s p ctx.s.length
  let r := processVisibleCp ctx p st d.1 d.2
  if r.2 then .cont (p + d.2) r.1 else .done r.1

/-- Per-character loop over the non-ASCII tail of a visible run, fuel-
structural; the Bool is `false` when the walk must stop (`goto walkDone`). -/
def perCharLoopF (ctx : WalkCtx) : Nat → Nat → WalkState → Nat →
    Option (Nat × WalkState × Bool)
  | fuel, p, st, runEnd =>
    if p < runEnd then
      match fuel with
      | 0 => none
      | fuel + 1 =>
        let d := decodeUnit ctx.w16 ctx.s p ctx.s.length
        let r := processVisibleCp ctx p st d.1 d.2
        if r.2 then perCharLoopF ctx fuel (p + d.2) r.1 runEnd
        else some (p, r.1, false)
    else some (p, st, true)

/-- Scan horizon of one walk iteration: never look past column
`specEnd + slop`, bounding all SIMD scans to the slice length. -/
def walkScanEnd (ctx : WalkCtx) (p : Nat) (st : WalkState) : Nat :=
  if ctx.endUnbounded then ctx.s.length
  else
    let budget := (ctx.specEnd - st.position) + 4
    if ctx.s.length - p ≤ budget then ctx.s.length else p + budget

/-- End of the current visible run: the next potential escape byte within the
scan horizon, or the horizon itself. -/
def walkRunEnd (ctx : WalkCtx) (p : Nat) (st : WalkState) : Nat :=
  (findEscapeCharacter ctx.s p (walkScanEnd ctx p st)).getD (walkScanEnd ctx p st)

/-- One iteration of the main walk (`while (p < dataEnd)` body): scan-horizon
cap, SIMD escape scan, bulk ASCII processing, per-character tail, then one
ANSI token attempt or one visible codepoint.  `none` only on inner fuel
exhaustion, which the termination theorem at the end of this file rules out. -/
def walkStep (ctx : WalkCtx) (p : Nat) (st : WalkState) : Option StepRes :=
  let len := ctx.s.length
  let runEnd := walkRunEnd ctx p st
  match bulkProcess ctx p st runEnd with
  | .done st1 => some (.done st1)
  | .cont d st1 =>
    match perCharLoopF ctx (len + 1) (p + d) st1 runEnd with
    | none => none
    | some (_, st2, false) => some (.done st2)
    | some (p2, st2, true) =>
      if p2 ≥ len then some (.done st2)
      else if isEscOrSt (ctx.s.getD p2 0) then
        match tryParseAnsi ctx.s p2 len with
        | some tok =>
          if ¬ st2.includeFlag then
            -- Pre-include: apply SGR / hyperlink state immediately; drop controls.
            match tok.type with
            | .Sgr =>
              some (.cont tok.endPos
                { st2 with activeStyles :=
                    applySgrToState st2.activeStyles (spanBytes ctx.s p2 (tok.endPos - p2)) })
            | .Hyperlink =>
              if tok.hlOpen then
                some (.cont tok.endPos
                  { st2 with activeHyperlink := true, activeHlCode := tok.hlCode
                             activeHlClosePfx := tok.hlClosePfx, activeHlTerm := tok.hlTerm })
              else some (.cont tok.endPos { st2 with activeHyperlink := false })
            | _ => some (.cont tok.endPos st2)
          else
            some (.cont tok.endPos
              { st2 with pending := st2.pending ++
                  [⟨p2, tok.endPos, tok.type, tok.hlOpen, tok.hlCode, tok.hlClosePfx,
                    tok.hlTerm⟩] })
        | none => some (singleVisibleStep ctx p2 st2)
      else some (singleVisibleStep ctx p2 st2)

/-- The outer walk, fuel-structural over iterations of `walkStep`. -/
def walkLoopF (ctx : WalkCtx) : Nat → Nat → WalkState → Option WalkState
  | fuel, p, st =>
    if p < ctx.s.length then
      match fuel with
      | 0 => none
      | fuel + 1 =>
        match walkStep ctx p st with
        | none => none
        | some (.done st1) => some st1
        | some (.cont p1 st1) => walkLoopF ctx fuel p1 st1
    else some st

/-- Post-walk finalization of `emitSliceStreaming` (cluster finalize,
trailing pending flush, speculative-zone resolution, hyperlink close,
end ellipsis, style closes). -/
def emitFinish (ctx : WalkCtx) (needEnd : Bool) (st0 : WalkState) : List Nat :=
  let st :=
    if ¬ st0.sawCutEnd then
      let st := if st0.hasPrev then { st0 with position := st0.position + st0.gs.width }
                else st0
      let trailingPastEnd := ¬ ctx.endUnbounded ∧ st.position ≥ ctx.specEnd
      if st.includeFlag then flushPending ctx trailingPastEnd st else st
    else st0
  if ¬ st.includeFlag then []
  else
    let rn : List Nat × Bool :=
      if ctx.ellipsisEndBudget > 0 then
        if st.sawCutEnd then (st.result, needEnd)
        else (st.result ++ st.specZone, false)
      else (st.result, needEnd)
    let res := rn.1
    let res := if st.activeHyperlink then res ++ st.activeHlClosePfx ++ st.activeHlTerm else res
    let res := if rn.2 then res ++ ctx.ellipsis else res
    res ++ st.activeStyles.emitCloseCodes

/-- sliceAnsi.cpp `emitSliceStreaming`.  `endv0 = sizeMax` encodes the
unbounded end (`end == SIZE_MAX`); callers guarantee `start < endv0`. -/
def emitSliceStreaming (w16 : Bool) (o : Oracles) (s : List Nat)
    (asciiRun start0 endv0 : Nat) (ellipsis : List Nat) (ellipsisWidth : Nat)
    (cutStartForEllipsis cutEndKnown cutEndHint ambiguousIsWide : Bool) : List Nat :=
  let len := s.length
  let endUnbounded := decide (endv0 = sizeMax)
  let w1 := if endUnbounded then sizeMax - start0 else endv0 - start0
  let needStart := decide (ellipsisWidth > 0) && cutStartForEllipsis &&
    decide (ellipsisWidth < w1)
  let start1 := if needStart then start0 + ellipsisWidth else start0
  let neb : Bool × Nat × Nat :=
    if ellipsisWidth > 0 ∧ cutEndKnown ∧ cutEndHint ∧ ellipsisWidth < endv0 - start1 then
      (true, 0, endv0 - ellipsisWidth)
    else if ellipsisWidth > 0 ∧ ¬ cutEndKnown ∧ ¬ endUnbounded ∧
        ellipsisWidth < endv0 - start1 then
      -- Lazy cutEnd: speculative budget for the end ellipsis.
      (true, ellipsisWidth, endv0 - ellipsisWidth)
    else (false, 0, endv0)
  let needEnd := neb.1
  let budget := neb.2.1
  let endv1 := neb.2.2
  if ellipsisWidth > 0 ∧ cutEndKnown ∧ (cutStartForEllipsis ∨ cutEndHint) ∧
      ¬ needStart ∧ ¬ needEnd then
    ellipsis -- degenerate: the range is too small for any ellipsis
  else
    let specEnd := if budget > 0 then endv1 + budget else endv1
    let ffEnd := if asciiRun > 0 then asciiRun - 1 else 0
    let pos0 := min start1 ffEnd
    let ctx : WalkCtx :=
      ⟨s, w16, o, ambiguousIsWide, start1, endv1, endUnbounded, specEnd, ellipsis,
        needStart, budget⟩
    match walkLoopF ctx (len + 1) pos0 { position := pos0 } with
    | none => [] -- unreachable: the walk halts within length + 1 iterations
    | some stF => emitFinish ctx needEnd stF

/-- sliceAnsi.cpp `sliceAnsiImpl`: `none` is the null-string identity signal
telling the JS binding to reuse the input without copy. -/
def sliceAnsiImpl (w16 : Bool) (o : Oracles) (s : List Nat) (startD endD : DNum)
    (ellipsis : List Nat) (ellipsisWidth : Nat) (ambiguousIsWide : Bool) :
    Option (List Nat) :=
  if s.isEmpty then some []
  else if startD = .fin 0 ∧ ¬ endD.isFin ∧ endD.gtNat 0 ∧ ellipsisWidth = 0 then
    none -- no-op fast path: identity signal
  else
    let size := s.length
    let pfxScanLen :=
      if ¬ startD.isNeg ∧ ¬ endD.isNeg ∧ endD.isFin then
        match endD with
        | .fin e => if e + 2 < (size : Int) then (e + 2).toNat else size
        | _ => size
      else size
    let asciiRun := firstNonAsciiPrintable s 0 pfxScanLen
    let wholeStringAscii := pfxScanLen = size ∧ asciiRun = size
    let sliceInsideRun := ¬ startD.isNeg ∧ ¬ endD.isNeg ∧ endD.ltNat asciiRun
    if wholeStringAscii ∨ sliceInsideRun then
      -- Printable-ASCII fast path: byte positions equal column positions.
      let totalW := if pfxScanLen = size ∧ asciiRun = size then size else asciiRun
      let b := resolveSliceBounds startD endD totalW
      if b.empty then some []
      else
        let cutEnd := if pfxScanLen = size ∧ asciiRun = size then b.cutEnd else true
        if ¬ b.cutStart ∧ ¬ cutEnd then none
        else if ellipsisWidth > 0 then
          let doStart := b.cutStart ∧ ellipsisWidth < b.endW - b.start
          let st := if doStart then b.start + ellipsisWidth else b.start
          let doEnd := cutEnd ∧ ellipsisWidth < b.endW - st
          let en := if doEnd then b.endW - ellipsisWidth else b.endW
          if ¬ doStart ∧ ¬ doEnd then some ellipsis
          else
            let content := spanBytes s st (en - st)
            if doStart ∧ doEnd then some (ellipsis ++ content ++ ellipsis)
            else if doStart then some (ellipsis ++ content)
            else some (content ++ ellipsis)
        else some (spanBytes s b.start (b.endW - b.start))
    else if ¬ startD.isNeg ∧ ¬ endD.isNeg then
      -- Non-negative indices: one walk, cutEnd detected lazily.
      if ¬ startD.isFin ∨ startD.gtNat (size * 2) then some []
      else
        let start := startD.toNatClamp
        if ¬ endD.isFin ∨ endD.gtNat (size * 2) then
          some (emitSliceStreaming w16 o s asciiRun start sizeMax ellipsis ellipsisWidth
            (decide (start > 0)) true false ambiguousIsWide)
        else
          let en := endD.toNatClamp
          if en ≤ start then some []
          else
            some (emitSliceStreaming w16 o s asciiRun start en ellipsis ellipsisWidth
              (decide (start > 0)) false false ambiguousIsWide)
    else
      -- Negative index: one width pre-pass, then the emit walk.
      let totalW := computeTotalWidth w16 s o ambiguousIsWide asciiRun
      let b := resolveSliceBounds startD endD totalW
      if b.empty then some []
      else
        some (emitSliceStreaming w16 o s asciiRun b.start b.endW ellipsis ellipsisWidth
          (decide (b.start > 0)) true b.cutEnd ambiguousIsWide)

/-- The JS binding's view of the result (jsFunctionBunSliceAnsi): empty input
returns the empty JS string before calling the slicer; a null result returns
the input JSString unchanged; otherwise the computed string is returned. -/
def sliceAnsiRendered (w16 : Bool) (o : Oracles) (s : List Nat) (startD endD : DNum)
    (ellipsis : List Nat) (ellipsisWidth : Nat) (ambiguousIsWide : Bool) : List Nat :=
  if s.isEmpty then []
  else
    match sliceAnsiImpl w16 o s startD endD ellipsis ellipsisWidth ambiguousIsWide with
    | none => s
    | some r => r

/-!  Abstract operation sequences over the SGR tracker, for invariant
statements about `SgrStyleState`. -/

inductive SgrOp where
  | reset
  | endOp (e : List Nat)
  | startOp (o e : List Nat)
deriving Repr, DecidableEq

def applySgrOp (st : SgrStyleState) : SgrOp → SgrStyleState
  | .reset => st.applyReset
  | .endOp e => st.applyEnd e
  | .startOp o e => st.applyStart o e

/-- Tracker state after a sequence of operations from the empty state. -/
def runSgrOps (ops : List SgrOp) : SgrStyleState :=
  ops.foldl applySgrOp {}

/-!  Concrete oracle instances for witnesses and counterexamples. -/

/-- Every codepoint narrow (width 1), every pair of codepoints breaking. -/
def narrowOracle : Oracles :=
  ⟨fun _ _ => 1, fun _ _ st => (true, st), fun _ => false⟩

/-- Every codepoint wide (width 2) — still within the 0..2 range that the
spec assumes of `codepoint_width`. -/
def wideOracle : Oracles :=
  ⟨fun _ _ => 2, fun _ _ st => (true, st), fun _ => false⟩

/-- An active-style state holding one entry closed by SGR 22 (e.g. bold). -/
def activeBold : SgrStyleState :=
  ⟨[⟨makeSgrCode false 22, makeSgrCode false 1⟩]⟩

/-- A pending buffer entry covering the colon-bearing SGR sequence
`ESC [ 3 : 2 m` at positions 0..6 of `ctxColonSgr.s`. -/
def pendingColonSgr : PendingEntry :=
  ⟨0, 6, .Sgr, false, [], [], []⟩

/-- A walk context whose input is the opaque sequence `ESC [ 3 : 2 m`. -/
def ctxColonSgr : WalkCtx :=
  ⟨[0x1b, 0x5b, 0x33, 0x3a, 0x32, 0x6d], false, narrowOracle, false, 0, 5, false, 5,
    [], false, 0⟩

/-!  ### Helper lemmas -/

theorem cpWidth_lt (o : Oracles) (cp : Nat) (amb : Bool) : cpWidth o cp amb < 256 :=
  Nat.mod_lt _ (by norm_num)

theorem add_nonEmojiWidth_le (gs : GraphemeWidthState) (o : Oracles) (amb : Bool)
    (cp : Nat) : (gs.add o amb cp).nonEmojiWidth ≤ gs.nonEmojiWidth + cpWidth o cp amb := by
  have hm : (gs.nonEmojiWidth + cpWidth o cp amb) % 65536 ≤
      gs.nonEmojiWidth + cpWidth o cp amb := Nat.mod_le _ _
  unfold GraphemeWidthState.add
  dsimp only
  split
  · split <;> omega
  · omega

theorem foldl_add_nonEmojiWidth_le (o : Oracles) (amb : Bool) (cps : List Nat) :
    ∀ gs : GraphemeWidthState,
      (cps.foldl (fun g c => g.add o amb c) gs).nonEmojiWidth ≤
        gs.nonEmojiWidth + clusterWidthSum o amb cps := by
  induction cps with
  | nil => intro gs; simp [clusterWidthSum]
  | cons c rest ih =>
    intro gs
    have h1 := add_nonEmojiWidth_le gs o amb c
    have h2 := ih (gs.add o amb c)
    simp only [List.foldl_cons, clusterWidthSum, List.map_cons, List.sum_cons] at *
    omega

theorem accum_nonEmojiWidth_le (o : Oracles) (amb : Bool) (cp : Nat) (cps : List Nat) :
    (accumCluster o amb cp cps).nonEmojiWidth ≤ clusterWidthSum o amb (cp :: cps) := by
  have h1 := foldl_add_nonEmojiWidth_le o amb cps (GraphemeWidthState.reset o amb cp)
  have h2 : (GraphemeWidthState.reset o amb cp).nonEmojiWidth = cpWidth o cp amb := rfl
  simp only [accumCluster, clusterWidthSum, List.map_cons, List.sum_cons] at *
  omega

theorem width_le_two_of_nonEmojiWidth (gs : GraphemeWidthState)
    (h : gs.nonEmojiWidth ≤ 2) : gs.width ≤ 2 := by
  have hm : gs.nonEmojiWidth % 256 ≤ gs.nonEmojiWidth := Nat.mod_le _ _
  unfold GraphemeWidthState.width
  repeat' split
  all_goals omega

theorem foldl_add_invariant (o : Oracles) (amb : Bool) (cps : List Nat) :
    ∀ gs : GraphemeWidthState, gs.nonEmojiWidth ≤ 1023 → gs.count ≤ 255 →
      (cps.foldl (fun g c => g.add o amb c) gs).nonEmojiWidth ≤ 1023 ∧
      (cps.foldl (fun g c => g.add o amb c) gs).count ≤ 255 := by
  induction cps with
  | nil => intro gs h1 h2; exact ⟨h1, h2⟩
  | cons c rest ih =>
    intro gs h1 h2
    simp only [List.foldl_cons]
    refine ih (gs.add o amb c) ?_ ?_ <;>
      (unfold GraphemeWidthState.add; dsimp only)
    · split
      · split <;> omega
      · omega
    · split <;> omega

/-!  ### Claim theorems -/

/-- C10: for the empty input string and every combination of start, end,
ellipsis and options, the slicer returns the empty string (and the JS binding
renders the empty string); the ellipsis is never emitted for empty input. -/
theorem empty_input_yields_empty (w16 : Bool) (o : Oracles) (startD endD : DNum)
    (ellipsis : List Nat) (ellipsisWidth : Nat) (amb : Bool) :
    sliceAnsiImpl w16 o [] startD endD ellipsis ellipsisWidth amb = some [] ∧
    sliceAnsiRendered w16 o [] startD endD ellipsis ellipsisWidth amb = [] := by
  constructor
  · simp [sliceAnsiImpl]
  · simp [sliceAnsiRendered]

/-- C1 (amended): for every NON-EMPTY input, slice(s, 0, +∞) with no ellipsis
returns the null-string identity signal and the binding returns the input
verbatim; for the empty input the binding returns the empty string without
invoking the identity path.  In all cases the rendered result is
byte-for-byte identical to the input. -/
theorem identity_path_returns_input (w16 : Bool) (o : Oracles) (s : List Nat)
    (amb : Bool) :
    (s ≠ [] → sliceAnsiImpl w16 o s (.fin 0) .posInf [] 0 amb = none) ∧
    sliceAnsiRendered w16 o s (.fin 0) .posInf [] 0 amb = s := by
  constructor
  · intro hne
    cases s with
    | nil => exact absurd rfl hne
    | cons c rest => simp [sliceAnsiImpl, DNum.isFin, DNum.gtNat]
  · cases s with
    | nil => simp [sliceAnsiRendered]
    | cons c rest =>
      simp [sliceAnsiRendered, sliceAnsiImpl, DNum.isFin, DNum.gtNat]

theorem identity_path_returns_input_witness :
    sliceAnsiImpl false narrowOracle [0x61] (.fin 0) .posInf [] 0 false = none ∧
    sliceAnsiRendered false narrowOracle [0x61] (.fin 0) .posInf [] 0 false = [0x61] :=
  ⟨(identity_path_returns_input false narrowOracle [0x61] false).1 (by decide),
   (identity_path_returns_input false narrowOracle [0x61] false).2⟩

/-- C1 counterexample: for the empty input the slicer does NOT return the
identity signal (the null string) — it returns the empty string, so the
claim's "for every input string s" fails at s = "". -/
theorem identity_path_empty_counterexample :
    sliceAnsiImpl false narrowOracle [] (.fin 0) .posInf [] 0 false = some [] ∧
    sliceAnsiImpl false narrowOracle [] (.fin 0) .posInf [] 0 false ≠ none := by
  constructor
  · rfl
  · decide

/-- C9: every parsed SGR parameter value is at most 999999 — once the
per-parameter accumulator reaches 100000 further digits are ignored, so the
32-bit accumulator cannot overflow on pathological digit runs. -/
theorem sgr_param_value_bound (cs : List Nat) :
    ((parseSgrParams cs).data.all fun x => decide (x ≤ 999999)) = true := by
  suffices h : ∀ (l : List Nat) (current : Nat) (hasDigit : Bool) (acc : List Nat)
      (hc : Bool), current ≤ 999999 → (acc.all fun x => decide (x ≤ 999999)) = true →
      ((parseSgrParamsLoop l current hasDigit acc hc).data.all
        fun x => decide (x ≤ 999999)) = true by
    exact h cs 0 false [] false (by omega) rfl
  intro l
  induction l with
  | nil =>
    intro current hasDigit acc hc hcur hacc
    simp only [parseSgrParamsLoop, sgrFinalize]
    split
    · split
      · exact hacc
      · simp_all
    · exact hacc
  | cons c rest ih =>
    intro current hasDigit acc hc hcur hacc
    simp only [parseSgrParamsLoop]
    split
    · refine ih _ _ _ _ ?_ hacc
      split <;> omega
    · split
      · split
        · exact hacc
        · refine ih _ _ _ _ (by omega) ?_
          simp_all
          split <;> omega
      · simp only [sgrFinalize]
        split
        · split
          · exact hacc
          · simp_all
        · exact hacc

/-- C8: after accumulating any grapheme cluster, `nonEmojiWidth` never
exceeds its 1023 saturation point and `count` never exceeds 255, and adding
any further codepoint cannot wrap the uint16 accumulator (the sum stays
below 2^16), so post-saturation adds are safe. -/
theorem grapheme_state_saturation (o : Oracles) (amb : Bool) (cp : Nat)
    (cps : List Nat) :
    (accumCluster o amb cp cps).nonEmojiWidth ≤ 1023 ∧
    (accumCluster o amb cp cps).count ≤ 255 ∧
    ∀ c, (accumCluster o amb cp cps).nonEmojiWidth + cpWidth o c amb < 65536 := by
  have h0 : (GraphemeWidthState.reset o amb cp).nonEmojiWidth ≤ 1023 := by
    have := cpWidth_lt o cp amb
    simp only [GraphemeWidthState.reset]
    omega
  have h1 : (GraphemeWidthState.reset o amb cp).count ≤ 255 := by
    simp [GraphemeWidthState.reset]
  have h := foldl_add_invariant o amb cps (GraphemeWidthState.reset o amb cp) h0 h1
  refine ⟨h.1, h.2, fun c => ?_⟩
  have := cpWidth_lt o c amb
  have h2 := h.1
  simp only [accumCluster] at *
  omega

/-- C3 (amended): under the spec's oracle assumption the special-cased
branches of the cluster width are always 0, 1 or 2; the fallback branch
returns the accumulated per-codepoint width sum, so the cluster width is
bounded by 2 whenever that sum is at most 2 (one base plus zero-width
continuations) — but not for arbitrary codepoint sequences. -/
theorem cluster_width_bounded (o : Oracles) (amb : Bool) (cp : Nat) (cps : List Nat)
    (h : clusterWidthSum o amb (cp :: cps) ≤ 2) :
    (accumCluster o amb cp cps).width ≤ 2 := by
  have h1 := accum_nonEmojiWidth_le o amb cp cps
  exact width_le_two_of_nonEmojiWidth _ (by omega)

theorem cluster_width_bounded_witness :
    clusterWidthSum narrowOracle false [0x41] ≤ 2 ∧
    (accumCluster narrowOracle false 0x41 []).width ≤ 2 :=
  ⟨by decide, cluster_width_bounded narrowOracle false 0x41 [] (by decide)⟩

/-- C3 counterexample: with an oracle that returns only widths in {0,1,2},
a two-codepoint cluster of two width-2 codepoints accumulates width 4 — the
accumulator's fallback branch is not bounded by 2, refuting the claim for
arbitrary non-empty codepoint sequences. -/
theorem cluster_width_can_exceed_two :
    ¬ (∀ (o : Oracles) (amb : Bool) (cp : Nat) (cps : List Nat),
        (∀ c b, o.codepointWidth c b ≤ 2) → (accumCluster o amb cp cps).width ≤ 2) := by
  intro h
  exact absurd (h wideOracle false 0x4E00 [0x4E01] fun _ _ => Nat.le_refl 2) (by decide)

theorem not_mem_filter_endCode (l : List SgrEntry) (e : List Nat) :
    e ∉ (l.filter fun x => decide (x.endCode ≠ e)).map SgrEntry.endCode := by
  intro hmem
  rcases List.mem_map.mp hmem with ⟨x, hx, hxe⟩
  rcases List.mem_filter.mp hx with ⟨_, hp⟩
  exact (of_decide_eq_true hp) hxe

theorem filter_endCode_nodup (l : List SgrEntry) (e : List Nat)
    (h : (l.map SgrEntry.endCode).Nodup) :
    ((l.filter fun x => decide (x.endCode ≠ e)).map SgrEntry.endCode).Nodup := by
  induction l with
  | nil => simp
  | cons a rest ih =>
    simp only [List.map_cons, List.nodup_cons] at h
    by_cases ha : a.endCode = e
    · rw [List.filter_cons_of_neg]
      · exact ih h.2
      · simp [ha]
    · rw [List.filter_cons_of_pos]
      · simp only [List.map_cons, List.nodup_cons]
        refine ⟨fun hmem => ?_, ih h.2⟩
        rcases List.mem_map.mp hmem with ⟨x, hx, hxe⟩
        exact h.1 (List.mem_map.mpr ⟨x, (List.mem_filter.mp hx).1, hxe⟩)
      · simp [ha]

theorem runSgrOps_aux_nodup (ops : List SgrOp) :
    ∀ st : SgrStyleState, ((st.entries.map SgrEntry.endCode)).Nodup →
      (((ops.foldl applySgrOp st).entries.map SgrEntry.endCode)).Nodup := by
  induction ops with
  | nil => intro st h; exact h
  | cons op rest ih =>
    intro st h
    simp only [List.foldl_cons]
    refine ih _ ?_
    cases op with
    | reset => simp [applySgrOp, SgrStyleState.applyReset]
    | endOp e => exact filter_endCode_nodup st.entries e h
    | startOp o e =>
      simp only [applySgrOp, SgrStyleState.applyStart, List.map_append, List.map_cons,
        List.map_nil]
      rw [List.nodup_append]
      refine ⟨filter_endCode_nodup st.entries e h, List.nodup_singleton _, ?_⟩
      intro x hx hx2
      rw [List.mem_singleton] at hx2
      rw [hx2] at hx
      exact not_mem_filter_endCode st.entries e hx

/-- C7: after every sequence of tracker operations from the empty state the
active-style container has pairwise-distinct close codes (at most one entry
per `close_code`) in insertion order, and applying a new style with an
existing close code removes the prior entry and appends the new one at the
most-recent position. -/
theorem sgr_tracker_order_and_uniqueness (ops : List SgrOp) :
    ((runSgrOps ops).entries.map SgrEntry.endCode).Nodup ∧
    ∀ o e, (runSgrOps (ops ++ [.startOp o e])).entries =
      ((runSgrOps ops).entries.filter fun x => decide (x.endCode ≠ e)) ++ [⟨e, o⟩] := by
  constructor
  · exact runSgrOps_aux_nodup ops {} (by simp)
  · intro o e
    simp [runSgrOps, List.foldl_append, applySgrOp, SgrStyleState.applyStart]

theorem shouldIncludeSgrLoopGo_eq (params : List Nat) (active : SgrStyleState) :
    ∀ (fuel i : Nat) (hs hc : Bool),
      shouldIncludeSgrLoopGo params active fuel i hs hc =
        (hs || (sgrDecomposeGo params fuel i).any sgrItemIsStart,
         hc || (sgrDecomposeGo params fuel i).any (sgrItemClosing active)) := by
  intro fuel
  induction fuel with
  | zero => intro i hs hc; simp [shouldIncludeSgrLoopGo, sgrDecomposeGo]
  | succ fuel ih =>
    intro i hs hc
    by_cases h1 : i < params.length
    · simp only [shouldIncludeSgrLoopGo, sgrDecomposeGo, if_pos h1]
      by_cases h2 : params.getD i 0 = 0
      · simp only [if_pos h2, ih, List.any_cons, sgrItemIsStart, sgrItemClosing]
        cases hs <;> cases hc <;> simp
      · by_cases h3 : isSgrEndCode (params.getD i 0) = true
        · simp only [if_neg h2, if_pos h3, ih, List.any_cons, sgrItemIsStart, sgrItemClosing]
          cases hs <;> cases hc <;> simp
        · by_cases h4 : params.getD i 0 = 38 ∨ params.getD i 0 = 48
          · simp only [if_neg h2, if_neg h3, if_pos h4, ih, List.any_cons,
              sgrItemIsStart, sgrItemClosing]
            cases hs <;> cases hc <;> simp
          · simp only [if_neg h2, if_neg h3, if_neg h4, ih, List.any_cons,
              sgrItemIsStart, sgrItemClosing]
            cases hs <;> cases hc <;> simp
    · simp [shouldIncludeSgrLoopGo, sgrDecomposeGo, if_neg h1]

/-- C4 (amended): a post-cut SGR sequence is emitted iff AT LEAST ONE of its
decomposed parameters has closing effect (the reset 0 with active styles
present, or an end code matching an actually-active style) and no parameter
is a start fragment; and an opaque (colon-bearing or parameter-count-
overflowed) sequence is never emitted by the post-cut filter. -/
theorem post_cut_sgr_filter_characterization :
    (∀ (params : SgrParams) (active : SgrStyleState),
      shouldIncludeSgrAfterEnd params active =
        ((sgrDecompose params.data).any (sgrItemClosing active) &&
          !((sgrDecompose params.data).any sgrItemIsStart))) ∧
    (∀ (ctx : WalkCtx) (st : WalkState) (pa : PendingEntry), pa.type = .Sgr →
      ((parseSgrParams (pendingParamBytes ctx pa)).overflow ∨
        (parseSgrParams (pendingParamBytes ctx pa)).hasColon) →
      flushOne ctx true st pa = st) := by
  constructor
  · intro params active
    unfold shouldIncludeSgrAfterEnd sgrDecompose
    rw [shouldIncludeSgrLoopGo_eq]
    simp [Bool.and_comm]
  · intro ctx st pa htype hov
    rcases pa with ⟨ps, pe, ty, ho, hcd, hpf, htm⟩
    simp only [PendingEntry.type] at htype
    subst htype
    simp only [flushOne, if_pos trivial]
    rw [if_pos hov]

/-- C4 counterexample: with one active style closed by 22, the sequence
`ESC [ 22 ; 39 m` is emitted by the code's post-cut filter although the
parameter 39 is an end code with NO matching active style — the claim's
"every parameter" condition rejects it, so the claimed iff is false. -/
theorem post_cut_sgr_filter_counterexample :
    shouldIncludeSgrAfterEnd (parseSgrParams [0x32, 0x32, 0x3b, 0x33, 0x39]) activeBold
      = true ∧
    specShouldIncludeSgrAfterEnd (parseSgrParams [0x32, 0x32, 0x3b, 0x33, 0x39]) activeBold
      = false := by
  constructor <;> decide

theorem post_cut_sgr_filter_witness :
    (shouldIncludeSgrAfterEnd (parseSgrParams [0x33, 0x39]) activeBold =
      ((sgrDecompose (parseSgrParams [0x33, 0x39]).data).any (sgrItemClosing activeBold) &&
        !((sgrDecompose (parseSgrParams [0x33, 0x39]).data).any sgrItemIsStart))) ∧
    flushOne ctxColonSgr true {} pendingColonSgr = {} :=
  ⟨post_cut_sgr_filter_characterization.1 _ _,
   post_cut_sgr_filter_characterization.2 ctxColonSgr {} pendingColonSgr rfl
     (Or.inr (by decide))⟩

/-- Decomposition of a cursor-bounded span into its head unit and tail. -/
theorem drop_take_cons (s : List Nat) (it e : Nat) (h1 : it < s.length) (h2 : it < e) :
    (s.drop it).take (e - it) =
      s.getD it 0 :: (s.drop (it + 1)).take (e - (it + 1)) := by
  have h3 : e - it = (e - (it + 1)) + 1 := by omega
  rw [h3, List.drop_eq_getElem_cons h1, List.take_succ_cons,
    List.getD_eq_getElem s 0 h1]

theorem parseCsiGo_stops (s : List Nat) (j : Nat) (hj : j < s.length)
    (hbad : ¬ (0x20 ≤ s.getD j 0 ∧ s.getD j 0 ≤ 0x7E)) :
    ∀ (n it : Nat) (c : Bool), it ≤ j → j - it ≤ n →
      (∀ k, it ≤ k → k < j → 0x20 ≤ s.getD k 0 ∧ s.getD k 0 ≤ 0x3F) →
      (parseCsiGo ((s.drop it).take (s.length - it)) it c).1 = j ∧
      (parseCsiGo ((s.drop it).take (s.length - it)) it c).2.1 = false := by
  intro n
  induction n with
  | zero =>
    intro it c hle hn _
    have hit : it = j := by omega
    subst hit
    rw [drop_take_cons s it s.length hj (by omega)]
    simp only [parseCsiGo]
    rw [if_neg (by omega), if_neg (by omega), if_neg (by omega)]
    exact ⟨rfl, rfl⟩
  | succ n ih =>
    intro it c hle hn hk
    by_cases hit : it = j
    · subst hit
      rw [drop_take_cons s it s.length hj (by omega)]
      simp only [parseCsiGo]
      rw [if_neg (by omega), if_neg (by omega), if_neg (by omega)]
      exact ⟨rfl, rfl⟩
    · have hlt : it < j := by omega
      have hin := hk it (by omega) hlt
      rw [drop_take_cons s it s.length (by omega) (by omega)]
      simp only [parseCsiGo]
      rw [if_neg (by omega)]
      have hk2 : ∀ k, it + 1 ≤ k → k < j → 0x20 ≤ s.getD k 0 ∧ s.getD k 0 ≤ 0x3F :=
        fun k hk1 hk2 => hk k (by omega) hk2
      by_cases hp : 0x30 ≤ s.getD it 0 ∧ s.getD it 0 ≤ 0x3F
      · rw [if_pos hp]
        exact ih (it + 1) _ (by omega) (by omega) hk2
      · rw [if_neg hp, if_pos (by omega)]
        exact ih (it + 1) _ (by omega) (by omega) hk2

/-- C5 (amended): a CSI sequence — introduced by `ESC [` (introducer length
2) or by the C1 byte `0x9B` (introducer length 1) — whose interior bytes are
parameter/intermediate bytes up to an interior byte outside the three valid
ranges makes the tokenizer return the cursor pointing at that byte, and the
CALLER receives a successful parse of the preceding bytes as an opaque
Control token (consuming introducer and valid prefix), resuming at the
malformed byte — not a failed parse with a one-byte advance. -/
theorem csi_malformed_consumed_as_control (s : List Nat) (p j introLen : Nat)
    (hintro : (s.getD p 0 = 0x1b ∧ s.getD (p + 1) 0 = 0x5b ∧ introLen = 2) ∨
      (s.getD p 0 = 0x9b ∧ introLen = 1))
    (h3 : p + introLen ≤ j) (h4 : j < s.length)
    (h5 : ∀ k, p + introLen ≤ k → k < j → 0x20 ≤ s.getD k 0 ∧ s.getD k 0 ≤ 0x3F)
    (h6 : ¬ (0x20 ≤ s.getD j 0 ∧ s.getD j 0 ≤ 0x7E)) :
    tryParseAnsi s p s.length = some ⟨j, .Control, false, [], [], []⟩ := by
  rcases hintro with ⟨h1, h2, hil⟩ | ⟨h1, hil⟩ <;> subst hil
  · -- 7-bit flavour: ESC [ … at positions p, p+1
    have hcsi := parseCsiGo_stops s j h4 h6 (j - (p + 2)) (p + 2) true h3 (by omega) h5
    have hlen : ¬ (s.length - p < 2) := by omega
    simp only [tryParseAnsi, parseHyperlink, parseControlString, parseCsi, h1, h2]
    norm_num
    rw [if_neg hlen]
    norm_num
    obtain ⟨ha, hb⟩ := hcsi
    refine ⟨ha, fun hcontra => ?_⟩
    rw [hb] at hcontra
    cases hcontra
  · -- C1 flavour: 0x9B … at position p
    have hcsi := parseCsiGo_stops s j h4 h6 (j - (p + 1)) (p + 1) true h3 (by omega) h5
    simp only [tryParseAnsi, parseHyperlink, parseControlString, parseCsi, h1]
    norm_num
    obtain ⟨ha, hb⟩ := hcsi
    refine ⟨ha, fun hcontra => ?_⟩
    rw [hb] at hcontra
    cases hcontra

theorem csi_malformed_consumed_as_control_witness :
    tryParseAnsi [0x1b, 0x5b, 0x33, 0x07, 0x41] 0
        ([0x1b, 0x5b, 0x33, 0x07, 0x41] : List Nat).length =
      some ⟨3, .Control, false, [], [], []⟩ ∧
    tryParseAnsi [0x9b, 0x33, 0x07, 0x41] 0
        ([0x9b, 0x33, 0x07, 0x41] : List Nat).length =
      some ⟨2, .Control, false, [], [], []⟩ :=
  ⟨csi_malformed_consumed_as_control [0x1b, 0x5b, 0x33, 0x07, 0x41] 0 3 2
    (Or.inl ⟨by decide, by decide, rfl⟩) (by omega) (by decide)
    (fun k hk1 hk2 => by
      have hk3 : k = 2 := by omega
      subst hk3
      decide)
    (by decide),
   csi_malformed_consumed_as_control [0x9b, 0x33, 0x07, 0x41] 0 2 1
    (Or.inr ⟨by decide, rfl⟩) (by omega) (by decide)
    (fun k hk1 hk2 => by
      have hk3 : k = 1 := by omega
      subst hk3
      decide)
    (by decide)⟩

/-- C5 counterexample: on `ESC [ 3 BEL A` (malformed interior byte BEL at
index 3), the tokenizer does NOT report a failed parse to the caller — it
returns a successful Control token consuming the bytes before the malformed
one, so the caller does not advance one byte over the introducer. -/
theorem csi_malformed_not_failed_parse :
    tryParseAnsi [0x1b, 0x5b, 0x33, 0x07, 0x41] 0 5 ≠ none ∧
    tryParseAnsi [0x1b, 0x5b, 0x33, 0x07, 0x41] 0 5 =
      some ⟨3, .Control, false, [], [], []⟩ := by
  constructor
  · decide
  · decide

/-- C6 (amended): the degenerate ellipsis-alone early return fires whenever
cut_end is known, AT LEAST ONE side is cut, and neither the start nor the
end ellipsis fits the window — both-sides-cut is not required. -/
theorem ellipsis_alone_degenerate (w16 : Bool) (o : Oracles) (s : List Nat)
    (asciiRun start0 endv0 : Nat) (ellipsis : List Nat) (W : Nat)
    (cutStart cutEndHint amb : Bool)
    (hW : 0 < W)
    (hcut : cutStart = true ∨ cutEndHint = true)
    (hs : ¬ (cutStart = true ∧ W < endv0 - start0))
    (he : ¬ (cutEndHint = true ∧ W < endv0 - start0)) :
    emitSliceStreaming w16 o s asciiRun start0 endv0 ellipsis W cutStart true cutEndHint amb
      = ellipsis := by
  have hlt : ¬ (W < endv0 - start0) := by
    rcases hcut with h | h
    · exact fun hc => hs ⟨h, hc⟩
    · exact fun hc => he ⟨h, hc⟩
  have hw1 : (if endv0 = sizeMax then sizeMax - start0 else endv0 - start0)
      = endv0 - start0 := by
    split
    · next hd => rw [hd]
    · rfl
  cases cutStart with
  | false =>
    cases cutEndHint with
    | false => simp at hcut
    | true => simp [emitSliceStreaming, hw1, hlt, hW]
  | true =>
    cases cutEndHint <;> simp [emitSliceStreaming, hw1, hlt, hW]

theorem ellipsis_alone_degenerate_witness :
    emitSliceStreaming false narrowOracle [0x61] 1 0 2 [0x2e] 3 false true true false
      = [0x2e] :=
  ellipsis_alone_degenerate false narrowOracle [0x61] 1 0 2 [0x2e] 3 false true false
    (by omega) (Or.inr rfl) (by simp) (by omega)

/-- C6 counterexample: slicing the plain string "abcd" to [0, 2) with an
ellipsis of width 3 returns the ellipsis alone although the START side is
not cut (start = 0) — refuting the claim that the ellipsis-alone result
requires both sides to be cut. -/
theorem ellipsis_alone_single_cut_counterexample :
    sliceAnsiImpl false narrowOracle [0x61, 0x62, 0x63, 0x64] (.fin 0) (.fin 2)
      [0x78, 0x79, 0x7a] 3 false = some [0x78, 0x79, 0x7a] := by
  decide

theorem decodeUnit_snd_pos (w16 : Bool) (s : List Nat) (p len : Nat) :
    1 ≤ (decodeUnit w16 s p len).2 := by
  simp only [decodeUnit]
  split
  · split <;> simp
  · simp

theorem findEscIn_lt : ∀ (l : List Nat) (i : Nat), findEscIn l = some i → i < l.length := by
  intro l
  induction l with
  | nil => intro i h; simp [findEscIn] at h
  | cons c rest ih =>
    intro i h
    simp only [findEscIn] at h
    split at h
    · simp only [Option.some.injEq] at h
      simp [List.length_cons]
      omega
    · cases hr : findEscIn rest with
      | none => rw [hr] at h; simp at h
      | some j =>
        rw [hr] at h
        simp only [Option.map_some', Option.some.injEq] at h
        have := ih j hr
        simp [List.length_cons]
        omega

theorem findEscapeCharacter_lt (s : List Nat) (p e i : Nat)
    (h : findEscapeCharacter s p e = some i) : i < e := by
  simp only [findEscapeCharacter] at h
  cases hr : findEscIn ((s.drop p).take (e - p)) with
  | none => rw [hr] at h; simp at h
  | some off =>
    rw [hr] at h
    simp only [Option.map_some', Option.some.injEq] at h
    have h2 := findEscIn_lt _ _ hr
    have h3 : ((s.drop p).take (e - p)).length ≤ e - p := List.length_take_le _ _
    omega

theorem walkScanEnd_le (ctx : WalkCtx) (p : Nat) (st : WalkState) :
    walkScanEnd ctx p st ≤ ctx.s.length := by
  unfold walkScanEnd
  split
  · exact le_refl _
  · dsimp only
    split
    · exact le_refl _
    · next h => omega

theorem walkRunEnd_le (ctx : WalkCtx) (p : Nat) (st : WalkState) :
    walkRunEnd ctx p st ≤ ctx.s.length := by
  unfold walkRunEnd
  cases hr : findEscapeCharacter ctx.s p (walkScanEnd ctx p st) with
  | none => simpa using walkScanEnd_le ctx p st
  | some i =>
    simp only [Option.getD_some]
    exact le_trans (le_of_lt (findEscapeCharacter_lt _ _ _ _ hr)) (walkScanEnd_le ctx p st)

theorem findCharIn_map_ge (t : Nat) (l : List Nat) (i m : Nat)
    (h : (findCharIn t l).map (· + i) = some m) : i ≤ m := by
  cases hr : findCharIn t l with
  | none => rw [hr] at h; simp at h
  | some j =>
    rw [hr] at h
    simp only [Option.map_some', Option.some.injEq] at h
    omega

theorem hlScanGo_endPos (s : List Nat) (p uriStart : Nat) (esc : Bool) :
    ∀ (l : List Nat) (q : Nat) (out : HlOut),
      hlScanGo s p uriStart esc l q = some out → q < out.endPos := by
  intro l
  induction l with
  | nil => intro q out h; simp [hlScanGo] at h
  | cons c rest ih =>
    intro q out h
    simp only [hlScanGo] at h
    split at h
    · cases h
      show q < q + 1
      omega
    · split at h
      · cases h
        show q < q + 2
        omega
      · split at h
        · cases h
          show q < q + 1
          omega
        · have := ih (q + 1) out h
          omega

theorem ctrlScanGo_gt (b : Bool) :
    ∀ (l : List Nat) (it e : Nat), ctrlScanGo b l it = some e → it < e := by
  intro l
  induction l with
  | nil => intro it e h; simp [ctrlScanGo] at h
  | cons c rest ih =>
    intro it e h
    simp only [ctrlScanGo] at h
    split at h
    · cases h; omega
    · split at h
      · cases h; omega
      · split at h
        · cases h; omega
        · have := ih (it + 1) e h
          omega

theorem parseCsiGo_ge : ∀ (l : List Nat) (it : Nat) (c : Bool),
    it ≤ (parseCsiGo l it c).1 := by
  intro l
  induction l with
  | nil => intro it c; simp [parseCsiGo]
  | cons ch rest ih =>
    intro it c
    simp only [parseCsiGo]
    split
    · show it ≤ it + 1
      omega
    · split
      · exact le_trans (by omega) (ih (it + 1) _)
      · split
        · exact le_trans (by omega) (ih (it + 1) false)
        · exact le_refl _

theorem parseHyperlink_advance (s : List Nat) (p len : Nat) (out : HlOut)
    (h : parseHyperlink s p len = some out) : p < out.endPos := by
  simp only [parseHyperlink] at h
  split at h
  · split at h
    · simp at h
    · next semi heq =>
      have h1 := findCharIn_map_ge 0x3b _ (p + 4) semi heq
      have h2 := hlScanGo_endPos s p (semi + 1) true _ _ _ h
      omega
  · split at h
    · split at h
      · simp at h
      · next semi heq =>
        have h1 := findCharIn_map_ge 0x3b _ (p + 3) semi heq
        have h2 := hlScanGo_endPos s p (semi + 1) false _ _ _ h
        omega
    · simp at h

theorem parseControlString_advance (s : List Nat) (p len e : Nat)
    (h : parseControlString s p len = some e) : p < e := by
  simp only [parseControlString] at h
  split at h
  · split at h
    · simp at h
    · split at h
      · have := ctrlScanGo_gt true _ _ _ h; omega
      · split at h
        · have := ctrlScanGo_gt false _ _ _ h; omega
        · split at h
          · cases h; omega
          · simp at h
  · split at h
    · have := ctrlScanGo_gt true _ _ _ h; omega
    · split at h
      · have := ctrlScanGo_gt false _ _ _ h; omega
      · split at h
        · cases h; omega
        · simp at h

theorem parseCsi_advance (s : List Nat) (p len : Nat) (r : Nat × Bool × Bool)
    (h : parseCsi s p len = some r) : p < r.1 := by
  simp only [parseCsi] at h
  split at h
  · split at h
    · simp at h
    · cases h
      have := parseCsiGo_ge ((s.drop (p + 2)).take (len - (p + 2))) (p + 2) true
      omega
  · split at h
    · cases h
      have := parseCsiGo_ge ((s.drop (p + 1)).take (len - (p + 1))) (p + 1) true
      omega
    · simp at h

theorem tryParseAnsi_advance (s : List Nat) (p len : Nat) (tok : AnsiToken)
    (h : tryParseAnsi s p len = some tok) : p < tok.endPos := by
  simp only [tryParseAnsi] at h
  split at h
  · next hl heq =>
    split at heq
    · cases h
      exact parseHyperlink_advance s p len hl heq
    · simp at heq
  · split at h
    · next e heq2 =>
      split at heq2
      · cases h
        exact parseControlString_advance s p len e heq2
      · simp at heq2
    · split at h
      · split at h
        · next e isSgr c2 heq3 =>
          cases h
          have := parseCsi_advance s p len _ heq3
          exact this
        · simp at h
      · simp at h

theorem perCharLoopF_p_ge (ctx : WalkCtx) :
    ∀ (fuel p : Nat) (st : WalkState) (runEnd p2 : Nat) (st2 : WalkState) (b : Bool),
      perCharLoopF ctx fuel p st runEnd = some (p2, st2, b) → p ≤ p2 := by
  intro fuel
  induction fuel with
  | zero =>
    intro p st runEnd p2 st2 b h
    simp only [perCharLoopF] at h
    split at h
    · simp at h
    · simp only [Option.some.injEq, Prod.mk.injEq] at h
      omega
  | succ fuel ih =>
    intro p st runEnd p2 st2 b h
    simp only [perCharLoopF] at h
    split at h
    · split at h
      · have := ih _ _ _ _ _ _ h
        omega
      · simp only [Option.some.injEq, Prod.mk.injEq] at h
        omega
    · simp only [Option.some.injEq, Prod.mk.injEq] at h
      omega

theorem perCharLoopF_isSome (ctx : WalkCtx) :
    ∀ (fuel p : Nat) (st : WalkState) (runEnd : Nat), runEnd - p < fuel →
      (perCharLoopF ctx fuel p st runEnd).isSome := by
  intro fuel
  induction fuel with
  | zero => intro p st runEnd h; omega
  | succ fuel ih =>
    intro p st runEnd h
    simp only [perCharLoopF]
    split
    · next hlt =>
      split
      · apply ih
        have hd := decodeUnit_snd_pos ctx.w16 ctx.s p ctx.s.length
        omega
      · simp
    · simp

theorem walkStep_isSome (ctx : WalkCtx) (p : Nat) (st : WalkState) :
    (walkStep ctx p st).isSome := by
  simp only [walkStep]
  split
  · simp
  · next d st1 heq =>
    have hrun : walkRunEnd ctx p st ≤ ctx.s.length := walkRunEnd_le ctx p st
    have hpc := perCharLoopF_isSome ctx (ctx.s.length + 1) (p + d) st1 (walkRunEnd ctx p st)
      (by omega)
    cases hq : perCharLoopF ctx (ctx.s.length + 1) (p + d) st1 (walkRunEnd ctx p st) with
    | none => rw [hq] at hpc; simp at hpc
    | some r =>
      rcases r with ⟨p2, st2, b⟩
      cases b
      · simp
      · dsimp only
        repeat' split
        all_goals simp [singleVisibleStep]

theorem walkStep_cont_advance (ctx : WalkCtx) (p : Nat) (st : WalkState) (p1 : Nat)
    (st1 : WalkState) (h : walkStep ctx p st = some (.cont p1 st1)) : p < p1 := by
  simp only [walkStep] at h
  split at h
  · simp at h
  · next d stb heqb =>
    cases hq : perCharLoopF ctx (ctx.s.length + 1) (p + d) stb (walkRunEnd ctx p st) with
    | none => rw [hq] at h; simp at h
    | some r =>
      rw [hq] at h
      rcases r with ⟨p2, st2, b⟩
      have hpc := perCharLoopF_p_ge ctx (ctx.s.length + 1) (p + d) stb (walkRunEnd ctx p st)
        p2 st2 b hq
      cases b
      · simp at h
      · dsimp only at h
        split at h
        · simp at h
        · split at h
          · split at h
            · next tok heqt =>
              have hadv := tryParseAnsi_advance ctx.s p2 ctx.s.length tok heqt
              split at h
              · split at h
                · cases h; omega
                · split at h <;> (cases h; omega)
                · cases h; omega
              · cases h; omega
            · simp only [singleVisibleStep] at h
              split at h
              · cases h
                have hd := decodeUnit_snd_pos ctx.w16 ctx.s p2 ctx.s.length
                omega
              · simp at h
          · simp only [singleVisibleStep] at h
            split at h
            · cases h
              have hd := decodeUnit_snd_pos ctx.w16 ctx.s p2 ctx.s.length
              omega
            · simp at h

theorem walkLoopF_isSome (ctx : WalkCtx) :
    ∀ (fuel p : Nat) (st : WalkState), ctx.s.length ≤ fuel + p →
      (walkLoopF ctx fuel p st).isSome := by
  intro fuel
  induction fuel with
  | zero =>
    intro p st h
    simp only [walkLoopF]
    split
    · omega
    · simp
  | succ fuel ih =>
    intro p st h
    simp only [walkLoopF]
    split
    · have hsome := walkStep_isSome ctx p st
      cases heq : walkStep ctx p st with
      | none => rw [heq] at hsome; simp at hsome
      | some sr =>
        cases sr with
        | done st1 => simp
        | cont p1 st1 =>
          have hadv := walkStep_cont_advance ctx p st p1 st1 heq
          exact ih p1 st1 (by omega)
    · simp

/-- C2: the slicing core is total — for every input span (either code-unit
width, any byte content, malformed or unterminated ANSI included), every
bound configuration and any Unicode oracles, the main slice walk terminates
within `length + 1` iterations (the cursor strictly advances on every
iteration, see `walkStep_cont_advance`) and produces a final state, never
an error.  This is exactly the fuel used by `emitSliceStreaming`, so its
fuel-exhaustion branch is unreachable. -/
theorem slice_walk_terminates (ctx : WalkCtx) (p : Nat) (st : WalkState) :
    (walkLoopF ctx (ctx.s.length + 1) p st).isSome :=
  walkLoopF_isSome ctx (ctx.s.length + 1) p st (by omega)

end SliceAnsi
